import Mathlib

/-!
# Memory-Structures: shallow embedding and verification

A shallow embedding of the `Memory-Structures` Rust crate
(`src/array.rs`, `src/table.rs`, `src/graphics.rs`, `src/utility.rs`)
together with proofs and refutations of its specified properties.

Modelling conventions:
* `usize` is modelled as `Nat` with an explicit bound `USIZE_MAX = 2^64 - 1`;
  Rust's `checked_add` / `checked_mul` become `Option Nat` valued functions.
* The raw-pointer buffer behind `Array<T>` is modelled as an unbounded memory
  `mem : Nat → T` (offsets measured from the array's base pointer) plus the
  declared `size`.  An *unchecked* write at offset `i ≥ size` is not trapped:
  it simply updates `mem i`, which makes out-of-bounds accesses observable in
  the model exactly as they would scribble past the allocation in the code.
* Every Rust `panic!` site (bounds check failure, `checked_*().unwrap()`,
  or the rasterizer's explicit overflow `panic!`) is modelled by returning
  `Except.error` with a distinguishing `Err` kind; `Except.ok` is normal
  return.  Checked operations validate before any write, as the code does.
* Rust `for` loops become structural recursions (`setLoop`, `addLoop`,
  `colLoop`) whose unrollings mirror the loop bodies statement by statement.
-/

namespace Mem

/-- Panic kinds, one per panic site in the code (`InvalidSize` for zero-size
construction, `IndexOutOfBounds` for `check_bound`, `ArithmeticOverflow` for
`checked_add`/`checked_mul` followed by `unwrap`, `overflowGuard` for the
rasterizer's explicit overflow panic). -/
inductive Err where
  | invalidSize
  | indexOutOfBounds
  | arithmeticOverflow
  | overflowGuard
deriving DecidableEq

/-- The largest value of `usize` (64-bit target). -/
def USIZE_MAX : Nat := 2 ^ 64 - 1

/-- Rust `usize::checked_add`. -/
def checked_add (a b : Nat) : Option Nat :=
  if a + b ≤ USIZE_MAX then some (a + b) else none

/-- Rust `usize::checked_mul`. -/
def checked_mul (a b : Nat) : Option Nat :=
  if a * b ≤ USIZE_MAX then some (a * b) else none

/-- `Array<T>` from `src/array.rs`: a declared size plus the raw memory seen
through the base pointer.  `mem` is total so that unchecked out-of-bounds
writes are visible in the model. -/
structure Array (T : Type) where
  size : Nat
  mem : Nat → T

namespace Array

/-- `Array::check_bound`: panics iff `index ≥ size`. -/
def check_bound (a : Array T) (index : Nat) : Except Err Unit :=
  if index ≥ a.size then .error .indexOutOfBounds else .ok ()

/-- `Array::len`. -/
def len (a : Array T) : Nat := a.size

/-- `Array::set_unchecked`: `*ptr.add(index) = value`, no validation. -/
def set_unchecked (a : Array T) (index : Nat) (value : T) : Array T :=
  { a with mem := fun j => if j = index then value else a.mem j }

/-- `Array::set`: `check_bound` then `set_unchecked`. -/
def set (a : Array T) (index : Nat) (value : T) : Except Err (Array T) :=
  match a.check_bound index with
  | .error e => .error e
  | .ok _ => .ok (a.set_unchecked index value)

/-- `Array::get_unchecked`: `*ptr.add(index)`, no validation. -/
def get_unchecked (a : Array T) (index : Nat) : T :=
  a.mem index

/-- `Array::get`: `check_bound` then `get_unchecked`. -/
def get (a : Array T) (index : Nat) : Except Err T :=
  match a.check_bound index with
  | .error e => .error e
  | .ok _ => .ok (a.get_unchecked index)

/-- The effect of `for index in start..=(start+count-1) { *ptr.add(index) = v }`,
unrolled one iteration at a time. -/
def setLoop (v : T) (memory : Nat → T) (start : Nat) : Nat → (Nat → T)
  | 0 => memory
  | c + 1 => setLoop v (fun j => if j = start then v else memory j) (start + 1) c

/-- `Array::set_some`: overflow-checked end index, bounds check, then the
write loop over `start..=end_index` (which runs `amount` times). -/
def set_some (a : Array T) (start_index amount : Nat) (value : T) :
    Except Err (Array T) :=
  if amount ≠ 0 then
    match checked_add start_index (amount - 1) with
    | none => .error .arithmeticOverflow
    | some end_index =>
      match a.check_bound end_index with
      | .error e => .error e
      | .ok _ => .ok { a with mem := setLoop value a.mem start_index amount }
  else
    .ok a

/-- `Array::set_all`: the unconditional write loop over `0..size`. -/
def set_all (a : Array T) (value : T) : Array T :=
  { a with mem := setLoop value a.mem 0 a.size }

/-- The effect of `for index in start..=(start+count-1) { *ptr.add(index) += amt }`
for an element type whose `+=` is `add`. -/
def addLoop (add : T → T → T) (amt : T) (memory : Nat → T) (start : Nat) :
    Nat → (Nat → T)
  | 0 => memory
  | c + 1 =>
    addLoop add amt
      (fun j => if j = start then add (memory start) amt else memory j)
      (start + 1) c

/-- `Array::add_unchecked` (for `T: AddAssign`): despite its name and its own
doc comment, the code calls `check_bound` before the in-place `+=`. -/
def add_unchecked (add : T → T → T) (a : Array T) (index : Nat) (amount : T) :
    Except Err (Array T) :=
  match a.check_bound index with
  | .error e => .error e
  | .ok _ =>
    .ok { a with mem := fun j => if j = index then add (a.mem index) amount else a.mem j }

/-- `Array::add`: `check_bound` then `add_unchecked` (which checks again). -/
def add (addFn : T → T → T) (a : Array T) (index : Nat) (amount : T) :
    Except Err (Array T) :=
  match a.check_bound index with
  | .error e => .error e
  | .ok _ => a.add_unchecked addFn index amount

/-- `Array::add_unchecked_some`: overflow-checked end index, **no** bounds
check, then the add loop over `start..=end_index`. -/
def add_unchecked_some (add : T → T → T) (a : Array T)
    (start_index amount_of_elements : Nat) (amount_to_add : T) :
    Except Err (Array T) :=
  if amount_of_elements ≠ 0 then
    match checked_add start_index (amount_of_elements - 1) with
    | none => .error .arithmeticOverflow
    | some _ =>
      .ok { a with mem := addLoop add amount_to_add a.mem start_index amount_of_elements }
  else
    .ok a

/-- `Array::add_some`: overflow-checked end index, bounds check, add loop. -/
def add_some (add : T → T → T) (a : Array T)
    (start_index amount_of_elements : Nat) (amount_to_add : T) :
    Except Err (Array T) :=
  if amount_of_elements ≠ 0 then
    match checked_add start_index (amount_of_elements - 1) with
    | none => .error .arithmeticOverflow
    | some end_index =>
      match a.check_bound end_index with
      | .error e => .error e
      | .ok _ =>
        .ok { a with mem := addLoop add amount_to_add a.mem start_index amount_of_elements }
  else
    .ok a

/-- `Array::add_all`: the add loop over `0..size`. -/
def add_all (add : T → T → T) (a : Array T) (amount : T) : Array T :=
  { a with mem := addLoop add amount a.mem 0 a.size }

/-- `Array::saturating_add_all`: the same loop shape with the element type's
`saturating_add` in place of `+=`. -/
def saturating_add_all (satAdd : T → T → T) (a : Array T) (amount : T) : Array T :=
  { a with mem := addLoop satAdd amount a.mem 0 a.size }

end Array

/-- The wrapping `+=` of a `w`-bit unsigned integer type (`u8`, `u16`, ...),
on its `Nat` representatives. -/
def wrapAdd (w : Nat) : Nat → Nat → Nat :=
  fun c amt => (c + amt) % 2 ^ w

/-- `saturating_add` of a `w`-bit unsigned integer type, as implemented for
`u8`, `u16`, ... in `src/utility.rs` (Rust's native clamp at the maximum). -/
def satAdd (w : Nat) : Nat → Nat → Nat :=
  fun c amt => min (c + amt) (2 ^ w - 1)

/-- `Table<T>` from `src/table.rs`. -/
structure Table (T : Type) where
  array : Array T
  width : Nat
  height : Nat
  bound : Nat

namespace Table

/-- `Table::new`: panics if `width == 0 || height == 0`, computes
`bound = width.checked_mul(height).unwrap()`, checks `bound - 1` against the
array's size, then builds the table. -/
def new (array : Array T) (width height : Nat) : Except Err (Table T) :=
  if width = 0 ∨ height = 0 then .error .invalidSize
  else
    match checked_mul width height with
    | none => .error .arithmeticOverflow
    | some bound =>
      match array.check_bound (bound - 1) with
      | .error e => .error e
      | .ok _ => .ok { array := array, width := width, height := height, bound := bound }

/-- `Table::unchecked_index_for`: `x + y * width`. -/
def unchecked_index_for (t : Table T) (x y : Nat) : Nat :=
  x + y * t.width

/-- `Table::index_for`: panics iff `x ≥ width || y ≥ height`, else the
row-major offset. -/
def index_for (t : Table T) (x y : Nat) : Except Err Nat :=
  if t.width ≤ x ∨ t.height ≤ y then .error .indexOutOfBounds
  else .ok (t.unchecked_index_for x y)

/-- `Table::set`: `array.set_unchecked(index_for(x, y), value)`. -/
def set (t : Table T) (x y : Nat) (value : T) : Except Err (Table T) :=
  match t.index_for x y with
  | .error e => .error e
  | .ok i => .ok { t with array := t.array.set_unchecked i value }

/-- `Table::get`: `array.get_unchecked(index_for(x, y))`. -/
def get (t : Table T) (x y : Nat) : Except Err T :=
  match t.index_for x y with
  | .error e => .error e
  | .ok i => .ok (t.array.get_unchecked i)

/-- `Table::set_unchecked_row`: `array.set_some(index_for(0, y), width, v)`. -/
def set_unchecked_row (t : Table T) (y : Nat) (value : T) : Except Err (Table T) :=
  match t.array.set_some (t.unchecked_index_for 0 y) t.width value with
  | .error e => .error e
  | .ok a => .ok { t with array := a }

/-- `Table::set_row`: panics iff `y ≥ height`, then `set_unchecked_row`. -/
def set_row (t : Table T) (y : Nat) (value : T) : Except Err (Table T) :=
  if t.height ≤ y then .error .indexOutOfBounds
  else t.set_unchecked_row y value

/-- The effect of `for _ in 1..height { index += height; set_unchecked(index) }`:
`count` remaining iterations, each advancing the running `index` by `step`
(the code uses `step = height`) and writing there. -/
def colLoop (v : T) (memory : Nat → T) (index step : Nat) : Nat → (Nat → T)
  | 0 => memory
  | c + 1 =>
    colLoop v (fun j => if j = index + step then v else memory j)
      (index + step) step c

/-- `Table::set_unchecked_column`: writes at `x`, then loops `height - 1`
times advancing the buffer index by `height` each iteration (as the code
does; the stride in the code is `self.height`, not `self.width`). -/
def set_unchecked_column (t : Table T) (x : Nat) (value : T) : Table T :=
  { t with array :=
      { t.array with
        mem := colLoop value
          (fun j => if j = x then value else t.array.mem j) x t.height
          (t.height - 1) } }

/-- `Table::set_column`: panics iff `x ≥ width`, then `set_unchecked_column`. -/
def set_column (t : Table T) (x : Nat) (value : T) : Except Err (Table T) :=
  if t.width ≤ x then .error .indexOutOfBounds
  else .ok (t.set_unchecked_column x value)

/-- `Table::set_all`: `array.set_some(0, bound, value)`. -/
def set_all (t : Table T) (value : T) : Except Err (Table T) :=
  match t.array.set_some 0 t.bound value with
  | .error e => .error e
  | .ok a => .ok { t with array := a }

/-- `<Table as Graphics2D>::add_unchecked`:
`array.add_unchecked(unchecked_index_for(x, y), amount)`. -/
def add_unchecked (add : T → T → T) (t : Table T) (x y : Nat) (amount : T) :
    Except Err (Table T) :=
  match t.array.add_unchecked add (t.unchecked_index_for x y) amount with
  | .error e => .error e
  | .ok a => .ok { t with array := a }

end Table

/-- One sink call issued by the rasterizer `Graphics2D::draw_line`: either a
single-cell `add_unchecked(x, y, value)` or a bulk
`add_unchecked_rect(min_x, min_y, max_x, max_y, value)`. -/
inductive Cmd where
  | addCell (x y : Nat)
  | addRect (minX minY maxX maxY : Nat)
deriving DecidableEq

/-- `Graphics2D::draw_line` from `src/graphics.rs`, as the ordered trace of
sink calls it issues for a sink of the given `width`/`height` (the applied
value does not influence control flow and is elided).  `Except.error
.overflowGuard` models the explicit overflow `panic!`. -/
def draw_line (width height x1 y1 x2 y2 : Nat) : Except Err (List Cmd) :=
  if (x1 ≥ width ∧ x2 ≥ width) ∨ (y1 ≥ height ∧ y2 ≥ height) then .ok []
  else if x1 = x2 then
    (if x1 < width then
      if y1 < y2 then .ok [Cmd.addRect x1 y1 x1 (min y2 (height - 1))]
      else .ok [Cmd.addRect x1 y2 x1 (min y1 (height - 1))]
    else .ok [])
  else if y1 = y2 then
    (if y1 < height then
      if x1 < x2 then .ok [Cmd.addRect x1 y1 (min x2 (width - 1)) y1]
      else .ok [Cmd.addRect x2 y1 (min x1 (width - 1)) y1]
    else .ok [])
  else
    let min_x := if x1 < x2 then x1 else x2
    let max_x := if x1 < x2 then x2 else x1
    let min_y := if y1 < y2 then y1 else y2
    let max_y := if y1 < y2 then y2 else y1
    let dx := max_x - min_x
    let dy := max_y - min_y
    let negative_slope := (x1 == min_x).xor (y1 == min_y)
    let end_x := if max_x ≥ width then width - 1 - min_x else max_x - min_x
    let end_y := if max_y ≥ height then height - 1 - min_y else max_y - min_y
    let check_overflow :=
      (match checked_mul end_x dy with
       | some product => (checked_add product min_y).isNone
       | none => true) ||
      (match checked_mul end_y dx with
       | some product => (checked_add product min_x).isNone
       | none => true)
    if check_overflow then .error .overflowGuard
    else
      let pass1 := (List.range (end_x + 1)).filterMap (fun extra_x =>
        let extra_y := extra_x * dy / dx
        if negative_slope then
          if extra_y ≤ max_y then
            some (Cmd.addCell (min_x + extra_x) (max_y - extra_y))
          else none
        else
          let y := extra_y + min_y
          if y < height then some (Cmd.addCell (extra_x + min_x) y) else none)
      let pass2 := (List.range (end_y + 1)).filterMap (fun extra_y =>
        let extra_x := extra_y * dx / dy
        if negative_slope then
          if extra_x ≤ max_x then
            some (Cmd.addCell (max_x - extra_x) (extra_y + min_y))
          else none
        else
          let x := extra_x + min_x
          if x < width then some (Cmd.addCell x (extra_y + min_y)) else none)
      .ok (pass1 ++ pass2)

/-! ## Loop characterization lemmas -/

/-- `setLoop` writes `v` exactly on the window `[s, s + c)`. -/
theorem setLoop_mem (v : T) (c : Nat) : ∀ (memory : Nat → T) (s j : Nat),
    Array.setLoop v memory s c j = if s ≤ j ∧ j < s + c then v else memory j := by
  induction c with
  | zero =>
    intro memory s j
    simp only [Array.setLoop]
    rw [if_neg (by omega)]
  | succ c ih =>
    intro memory s j
    simp only [Array.setLoop]
    rw [ih]
    by_cases h1 : s + 1 ≤ j ∧ j < s + 1 + c
    · rw [if_pos h1, if_pos (show s ≤ j ∧ j < s + (c + 1) by omega)]
    · rw [if_neg h1]
      show (if j = s then v else memory j) = _
      by_cases h2 : j = s
      · subst h2
        rw [if_pos rfl, if_pos (show j ≤ j ∧ j < j + (c + 1) by omega)]
      · rw [if_neg h2, if_neg (show ¬(s ≤ j ∧ j < s + (c + 1)) by omega)]

/-- `addLoop` applies `add · amt` exactly on the window `[s, s + c)` (each
offset is visited once, so exactly one application). -/
theorem addLoop_mem (add : T → T → T) (amt : T) (c : Nat) :
    ∀ (memory : Nat → T) (s j : Nat),
    Array.addLoop add amt memory s c j
      = if s ≤ j ∧ j < s + c then add (memory j) amt else memory j := by
  induction c with
  | zero =>
    intro memory s j
    simp only [Array.addLoop]
    rw [if_neg (by omega)]
  | succ c ih =>
    intro memory s j
    simp only [Array.addLoop]
    rw [ih]
    by_cases h1 : s + 1 ≤ j ∧ j < s + 1 + c
    · rw [if_pos h1, if_pos (show s ≤ j ∧ j < s + (c + 1) by omega)]
      show add (if j = s then add (memory s) amt else memory j) amt = _
      rw [if_neg (show ¬ j = s by omega)]
    · rw [if_neg h1]
      show (if j = s then add (memory s) amt else memory j) = _
      by_cases h2 : j = s
      · subst h2
        rw [if_pos rfl, if_pos (show j ≤ j ∧ j < j + (c + 1) by omega)]
      · rw [if_neg h2, if_neg (show ¬(s ≤ j ∧ j < s + (c + 1)) by omega)]

/-! ## Claim theorems -/

/-- C9: for a `w`-bit unsigned element type, `add_all(a)` then `add_all(b)`
equals a single `add_all((a + b) mod 2^w)` — per-cell wrapping addition is
associative across the two passes. -/
theorem add_all_additive (w : Nat) (a : Mem.Array Nat) (x y : Nat) :
    (a.add_all (wrapAdd w) x).add_all (wrapAdd w) y
      = a.add_all (wrapAdd w) ((x + y) % 2 ^ w) := by
  cases a with
  | mk size memory =>
    simp only [Array.add_all]
    congr 1
    funext j
    simp only [addLoop_mem]
    by_cases hj : 0 ≤ j ∧ j < 0 + size
    · rw [if_pos hj, if_pos hj, if_pos hj]
      show ((memory j + x) % 2 ^ w + y) % 2 ^ w
          = (memory j + (x + y) % 2 ^ w) % 2 ^ w
      rw [Nat.mod_add_mod, Nat.add_mod_mod, Nat.add_assoc]
    · rw [if_neg hj, if_neg hj, if_neg hj]

/-- C10: for a `w`-bit unsigned element type, `saturating_add_all` leaves each
cell at `min(cell + amount, MAX)`, hence never outside `[0, MAX]` — it clamps
at the boundary instead of wrapping. -/
theorem saturating_add_all_spec (w : Nat) (a : Mem.Array Nat) (amount j : Nat)
    (hj : j < a.size) :
    (a.saturating_add_all (satAdd w) amount).mem j
        = min (a.mem j + amount) (2 ^ w - 1)
      ∧ (a.saturating_add_all (satAdd w) amount).mem j ≤ 2 ^ w - 1 := by
  have hmem : (a.saturating_add_all (satAdd w) amount).mem j
      = min (a.mem j + amount) (2 ^ w - 1) := by
    simp only [Array.saturating_add_all]
    rw [addLoop_mem, if_pos (by omega)]
    rfl
  exact ⟨hmem, by rw [hmem]; exact Nat.min_le_right _ _⟩

/-- C7: for every `Array` and `index < len`, `set(index, v)` succeeds, after
it `get(index)` returns `v` and every other cell is unchanged; `get` and
`set` panic exactly when `index ≥ len`. -/
theorem array_set_get_spec (a : Mem.Array T) :
    (∀ index v, index < a.size →
      ∃ a2, a.set index v = .ok a2 ∧ a2.size = a.size ∧ a2.get index = .ok v ∧
        ∀ j, j ≠ index → a2.mem j = a.mem j)
    ∧ (∀ index (v : T), (a.set index v).isOk = false ↔ a.size ≤ index)
    ∧ (∀ index, (a.get index).isOk = false ↔ a.size ≤ index) := by
  refine ⟨?_, ?_, ?_⟩
  · intro index v h
    have hnb : ¬(a.size ≤ index) := by omega
    refine ⟨a.set_unchecked index v, ?_, rfl, ?_, ?_⟩
    · simp [Array.set, Array.check_bound, hnb]
    · simp [Array.get, Array.check_bound, Array.set_unchecked,
        Array.get_unchecked, hnb]
    · intro j hj
      simp [Array.set_unchecked, hj]
  · intro index v
    by_cases h : a.size ≤ index
    · simp [Array.set, Array.check_bound, h, Except.isOk, Except.toBool]
    · simp [Array.set, Array.check_bound, h, Except.isOk, Except.toBool]
  · intro index
    by_cases h : a.size ≤ index
    · simp [Array.get, Array.check_bound, h, Except.isOk, Except.toBool]
    · simp [Array.get, Array.check_bound, h, Except.isOk, Except.toBool]

/-- Witness for C7: a 3-cell array of 7s; `set 1 9` then `get 1` gives 9,
cell 0 still 7; `set` at index 5 fails. -/
theorem array_set_get_spec_witness :
    (1 < 3) ∧
    (∃ a2, Array.set (⟨3, fun _ => 7⟩ : Mem.Array Nat) 1 9 = .ok a2 ∧
      a2.get 1 = .ok 9 ∧ a2.mem 0 = 7) ∧
    (Array.set (⟨3, fun _ => 7⟩ : Mem.Array Nat) 5 9).isOk = false := by
  obtain ⟨a2, h1, _, h3, h4⟩ :=
    (array_set_get_spec (⟨3, fun _ => 7⟩ : Mem.Array Nat)).1 1 9 (by decide)
  exact ⟨by decide, ⟨a2, h1, h3, h4 0 (by decide)⟩,
    ((array_set_get_spec (⟨3, fun _ => 7⟩ : Mem.Array Nat)).2.1 5 9).mpr (by decide)⟩

/-- C8: for every `Array` whose size fits in `usize`, `set_some(start, count, v)`
with `start + count ≤ len` sets exactly the window `[start, start + count)`
and leaves the rest unchanged; `count = 0` is a no-op returning the array
untouched; `count > 0` with `start + count - 1` past `usize::MAX` fails with
the arithmetic-overflow panic (before any write: the error carries no state). -/
theorem set_some_spec (a : Mem.Array T) (hsz : a.size ≤ USIZE_MAX) :
    (∀ start count (v : T), start + count ≤ a.size →
      ∃ a2, a.set_some start count v = .ok a2 ∧ a2.size = a.size ∧
        (∀ j, start ≤ j → j < start + count → a2.mem j = v) ∧
        (∀ j, j < start ∨ start + count ≤ j → a2.mem j = a.mem j))
    ∧ (∀ start (v : T), a.set_some start 0 v = .ok a)
    ∧ (∀ start count (v : T), count ≠ 0 → USIZE_MAX < start + (count - 1) →
        a.set_some start count v = .error .arithmeticOverflow) := by
  refine ⟨?_, ?_, ?_⟩
  · intro start count v h
    by_cases hc : count = 0
    · subst hc
      exact ⟨a, by simp [Array.set_some], rfl, by omega, fun j _ => rfl⟩
    · have hend : checked_add start (count - 1) = some (start + (count - 1)) := by
        unfold checked_add
        rw [if_pos (by omega)]
      have hnb : ¬(a.size ≤ start + (count - 1)) := by omega
      refine ⟨{ a with mem := Array.setLoop v a.mem start count }, ?_, rfl, ?_, ?_⟩
      · simp [Array.set_some, hc, hend, Array.check_bound, hnb]
      · intro j h1 h2
        show Array.setLoop v a.mem start count j = v
        rw [setLoop_mem, if_pos ⟨h1, h2⟩]
      · intro j hj
        show Array.setLoop v a.mem start count j = a.mem j
        rw [setLoop_mem, if_neg (by omega)]
  · intro start v
    simp [Array.set_some]
  · intro start count v hc hov
    have hend : checked_add start (count - 1) = none := by
      unfold checked_add
      rw [if_neg (by omega)]
    simp [Array.set_some, hc, hend]

/-- Witness for C8: a 4-cell array, `set_some 1 2 5` writes cells 1 and 2,
leaves cell 3; `set_some start 0` is the identity; a window whose end index
wraps `usize` overflows. -/
theorem set_some_spec_witness :
    (4 ≤ USIZE_MAX) ∧
    (∃ a2, Array.set_some (⟨4, fun _ => 0⟩ : Mem.Array Nat) 1 2 5 = .ok a2 ∧
      a2.mem 1 = 5 ∧ a2.mem 3 = 0) ∧
    Array.set_some (⟨4, fun _ => 0⟩ : Mem.Array Nat) 9 0 5 = .ok ⟨4, fun _ => 0⟩ ∧
    Array.set_some (⟨4, fun _ => 0⟩ : Mem.Array Nat) USIZE_MAX 2 5
      = .error .arithmeticOverflow := by
  obtain ⟨a2, h1, _, h3, h4⟩ :=
    (set_some_spec (⟨4, fun _ => 0⟩ : Mem.Array Nat) (by decide)).1 1 2 5 (by decide)
  refine ⟨by decide, ⟨a2, h1, h3 1 (by decide) (by decide), h4 3 (by decide)⟩, ?_, ?_⟩
  · exact (set_some_spec (⟨4, fun _ => 0⟩ : Mem.Array Nat) (by decide)).2.1 9 5
  · exact (set_some_spec (⟨4, fun _ => 0⟩ : Mem.Array Nat) (by decide)).2.2
      USIZE_MAX 2 5 (by decide) (by decide)

/-- Witness for C10: a `u8` cell holding 250, saturating add of 10, becomes
255 (not 4). -/
theorem saturating_add_all_spec_witness :
    0 < (⟨1, fun _ => 250⟩ : Mem.Array Nat).size ∧
    (Array.saturating_add_all (satAdd 8) ⟨1, fun _ => 250⟩ 10).mem 0 = 255 := by
  refine ⟨by decide, ?_⟩
  rw [(saturating_add_all_spec 8 ⟨1, fun _ => 250⟩ 10 0 (by decide)).1]
  decide

/-- C6: on a table whose cached `bound` is `width * height`, `index_for`
restricted to in-range pairs returns `x + y * width`, lands below `bound`,
is injective and surjective onto `[0, bound)`, and panics exactly when
`x ≥ width` or `y ≥ height`. -/
theorem index_for_bijection (t : Mem.Table T) (hb : t.bound = t.width * t.height) :
    (∀ x y, x < t.width → y < t.height →
      t.index_for x y = .ok (x + y * t.width) ∧ x + y * t.width < t.bound)
    ∧ (∀ x y x2 y2, x < t.width → y < t.height → x2 < t.width → y2 < t.height →
        x + y * t.width = x2 + y2 * t.width → x = x2 ∧ y = y2)
    ∧ (∀ i, i < t.bound → ∃ x y, x < t.width ∧ y < t.height ∧ x + y * t.width = i)
    ∧ (∀ x y, (t.index_for x y).isOk = false ↔ (t.width ≤ x ∨ t.height ≤ y)) := by
  refine ⟨?_, ?_, ?_, ?_⟩
  · intro x y hx hy
    refine ⟨?_, ?_⟩
    · simp [Table.index_for, Table.unchecked_index_for,
        Nat.not_le.mpr hx, Nat.not_le.mpr hy]
    · rw [hb]
      calc x + y * t.width < (y + 1) * t.width := by
            rw [Nat.succ_mul]
            omega
        _ ≤ t.height * t.width := Nat.mul_le_mul_right _ hy
        _ = t.width * t.height := Nat.mul_comm _ _
  · intro x y x2 y2 hx hy hx2 hy2 heq
    have hw : 0 < t.width := by omega
    have hxx : x = x2 := by
      have h1 := congrArg (· % t.width) heq
      simpa [Nat.add_mul_mod_self_right, Nat.mod_eq_of_lt hx,
        Nat.mod_eq_of_lt hx2] using h1
    refine ⟨hxx, ?_⟩
    subst hxx
    have h2 : y * t.width = y2 * t.width := by omega
    exact Nat.eq_of_mul_eq_mul_right hw h2
  · intro i hi
    have hw : 0 < t.width := by
      rcases Nat.eq_zero_or_pos t.width with h0 | h
      · rw [hb, h0, Nat.zero_mul] at hi
        omega
      · exact h
    refine ⟨i % t.width, i / t.width, Nat.mod_lt _ hw, ?_, ?_⟩
    · rw [hb] at hi
      exact (Nat.div_lt_iff_lt_mul hw).mpr (by rw [Nat.mul_comm]; exact hi)
    · exact Nat.mod_add_div' i t.width
  · intro x y
    by_cases h : t.width ≤ x ∨ t.height ≤ y
    · simp [Table.index_for, h, Except.isOk, Except.toBool]
    · simp [Table.index_for, h, Except.isOk, Except.toBool]

/-- Witness for C6: on a 2×3 table, `index_for 1 2 = 5` and `index_for 2 0`
panics. -/
theorem index_for_bijection_witness :
    Table.index_for (⟨⟨6, fun _ => 0⟩, 2, 3, 6⟩ : Mem.Table Nat) 1 2 = .ok 5 ∧
    (Table.index_for (⟨⟨6, fun _ => 0⟩, 2, 3, 6⟩ : Mem.Table Nat) 2 0).isOk = false := by
  have h := index_for_bijection (⟨⟨6, fun _ => 0⟩, 2, 3, 6⟩ : Mem.Table Nat) (by decide)
  exact ⟨(h.1 1 2 (by decide) (by decide)).1, (h.2.2.2 2 0).mpr (Or.inl (by decide))⟩

/-- C3 counterexample: `Table::new` accepts a buffer of length 5 for a 2×2
table even though `5 ≠ 2 * 2` — construction checks `length ≥ width * height`,
not equality, so the claim "succeeds only when the length equals
width × height" is false. -/
theorem table_new_accepts_larger_buffer :
    (Table.new (⟨5, fun _ => (0 : Nat)⟩ : Mem.Array Nat) 2 2).isOk = true
      ∧ 5 ≠ 2 * 2 := by
  exact ⟨by decide, by decide⟩

/-- C3 amended: for `width, height > 0` with `width * height` within `usize`,
`Table::new` succeeds exactly when the buffer's length is **at least**
`width * height`; on success the offset range `[0, bound)` lies within the
buffer (`bound = width * height ≤ size`) but may be a proper subset. -/
theorem table_new_succeeds_iff (a : Mem.Array T) (width height : Nat)
    (hw : 0 < width) (hh : 0 < height) (hm : width * height ≤ USIZE_MAX) :
    ((Table.new a width height).isOk = true ↔ width * height ≤ a.size)
    ∧ ∀ t, Table.new a width height = .ok t →
        t.width = width ∧ t.height = height ∧ t.bound = width * height
          ∧ t.bound ≤ a.size := by
  have hcond : ¬(width = 0 ∨ height = 0) := by omega
  have hmul : checked_mul width height = some (width * height) := by
    unfold checked_mul
    rw [if_pos hm]
  have hpos : 0 < width * height := Nat.mul_pos hw hh
  constructor
  · by_cases hok : width * height ≤ a.size
    · have hnb : ¬(a.size ≤ width * height - 1) := by omega
      simp [Table.new, hcond, hmul, Array.check_bound, hnb, Except.isOk,
        Except.toBool, hok]
    · have hnb : a.size ≤ width * height - 1 := by omega
      simp [Table.new, hcond, hmul, Array.check_bound, hnb, Except.isOk,
        Except.toBool, hok]
  · intro t ht
    by_cases hok : width * height ≤ a.size
    · have hnb : ¬(a.size ≤ width * height - 1) := by omega
      simp [Table.new, hcond, hmul, Array.check_bound, hnb] at ht
      rw [← ht]
      exact ⟨rfl, rfl, rfl, hok⟩
    · have hnb : a.size ≤ width * height - 1 := by omega
      simp [Table.new, hcond, hmul, Array.check_bound, hnb] at ht

/-- Witness for C3 (amended): the 2×2 table over the length-5 buffer is
accepted, as the amended criterion `4 ≤ 5` predicts. -/
theorem table_new_succeeds_iff_witness :
    (0 < 2) ∧ (2 * 2 ≤ USIZE_MAX) ∧
    (Table.new (⟨5, fun _ => (0 : Nat)⟩ : Mem.Array Nat) 2 2).isOk = true := by
  exact ⟨by decide, by decide,
    ((table_new_succeeds_iff (⟨5, fun _ => 0⟩ : Mem.Array Nat) 2 2 (by decide)
      (by decide) (by decide)).1).mpr (by decide)⟩

/-- C1 evidence: on a 3×3 sink, `draw_line (0,5)-(5,0)` (a negative-slope
diagonal with one endpoint far below the grid) issues `add_unchecked` at
(0,5), (1,4), (5,0), (4,1), (3,2) — cells with `x ≥ 3` or `y ≥ 3`.  The
negative-slope branch guards with `extra_y <= max_y` / `extra_x <= max_x`
instead of clipping against `height` / `width`, so clipping is incomplete. -/
theorem draw_line_negative_slope_oob :
    draw_line 3 3 0 5 5 0
      = .ok [Cmd.addCell 0 5, Cmd.addCell 1 4, Cmd.addCell 2 3,
             Cmd.addCell 5 0, Cmd.addCell 4 1, Cmd.addCell 3 2]
    ∧ ¬(5 < 3) := by
  exact ⟨rfl, by decide⟩

/-- C2 evidence: on a 2×3 table (buffer offsets 0–5, column 0 at offsets
0, 2, 4), `set_column 0 1` leaves offsets 2 and 4 untouched and instead
writes offsets 0, 3, 6 — offset 3 is cell (1,1) of a *different* column and
offset 6 is past `width * height`.  The column loop strides by `height`
instead of `width`. -/
theorem set_column_stride_bug :
    (Table.set_column (⟨⟨6, fun _ => 0⟩, 2, 3, 6⟩ : Mem.Table Nat) 0 1).map
        (fun t2 => (t2.array.mem 0, t2.array.mem 2, t2.array.mem 3,
                    t2.array.mem 4, t2.array.mem 6))
      = .ok (1, 0, 1, 0, 1) := by
  rfl

/-- C5 evidence: on a 2×3 table backed by a buffer of length 7 (strictly
longer than `width * height = 6`), `set_column 1 1` writes buffer offset 7,
which is `≥ width * height` (and even past the buffer) — the claim that no
Table operation touches offsets `≥ width * height` fails. -/
theorem set_column_writes_past_bound :
    (Table.set_column (⟨⟨7, fun _ => 0⟩, 2, 3, 6⟩ : Mem.Table Nat) 1 1).map
        (fun t2 => t2.array.mem 7)
      = .ok 1 := by
  rfl

/-- C4 evidence: `Array::add_unchecked` on a length-1 array at index 1 hits
the `check_bound` panic instead of being an unvalidated access — the code
validates the index, contradicting its own "undefined behavior" contract. -/
theorem add_unchecked_panics_on_oob :
    Array.add_unchecked (fun a b => a + b) (⟨1, fun _ => (0 : Nat)⟩ : Mem.Array Nat) 1 5
      = .error .indexOutOfBounds := by
  rfl

end Mem
